import Mathlib

/-!
Verification of the indexing core of rtags (ClangProject.h / Project.h),
shallowly embedded in Lean 4. Machine integers (uint32_t, uint64_t) are
modelled as `Nat`; C++ strings and paths as `String`; hashes and linked
lists as association lists; sets of small values as boolean membership
functions. Each definition is translated from the corresponding source
construct, named after it where Lean allows.
-/

namespace RTags

/-! ## FixIt (ClangProject.h lines 48-65)

`struct FixIt { uint32_t start, end; String text; }` with
`operator<` comparing only `start` and `operator==` comparing all
three fields. -/

structure FixIt where
  start : Nat
  endOff : Nat
  text : String
  deriving DecidableEq, Repr

/-- Source `FixIt::operator<`: `return start < other.start;` -/
def FixIt.lt (a b : FixIt) : Bool :=
  a.start < b.start

/-- Source `FixIt::operator==`: `start == other.start && end == other.end && text == other.text` -/
def FixIt.eqOp (a b : FixIt) : Bool :=
  a.start == b.start && a.endOff == b.endOff && a.text == b.text

/-! ## UnitCache (ClangProject.h lines 145-212)

A static LRU-ish cache of parsed translation units, keyed by path. The
backing store is `LinkedList<std::pair<Path, shared_ptr<Unit>>> units`,
modelled as a `List (String × Nat)` whose head is the list front
(`begin()` / `pop_front` end) and whose last element is the back
(`push_back` end). The opaque `CXTranslationUnit` handle is modelled
as a `Nat`. -/

/-- Source `UnitCache::MaxSize`, the enum constant 5. -/
def UnitCache.MaxSize : Nat := 5

/-- Source `UnitCache::get`: scans `units` from the front; on the first entry whose
path matches it copies the handle, **erases the entry**, and returns the
copy; otherwise returns a null pointer (here `none`). Returns the result
together with the updated list. -/
def UnitCache.get (units : List (String × Nat)) (path : String) :
    Option Nat × List (String × Nat) :=
  match units with
  | [] => (none, [])
  | (p, u) :: rest =>
    if p = path then (some u, rest)
    else
      let (r, rest') := UnitCache.get rest path
      (r, (p, u) :: rest')

/-- Source `UnitCache::put`: `units.push_back(make_pair(path, unit)); if
(units.size() > MaxSize) units.pop_front();`. -/
def UnitCache.put (units : List (String × Nat)) (path : String) (u : Nat) :
    List (String × Nat) :=
  if UnitCache.MaxSize < (units ++ [(path, u)]).length then
    (units ++ [(path, u)]).tail
  else
    units ++ [(path, u)]

/-! ## Project::visitFile (Project.h lines 194-210)

`mVisitedFiles` is a `Hash<uint32_t, Path>`, modelled as an association
list; `mJobs` is a `Hash<uint64_t, JobData>` of which `visitFile` only
touches `data.job->visited` (a `Set<uint32_t>`), so a job is modelled by
its visited set. `mVisitedFiles[visitFileId]` default-constructs an empty
path when the key is absent, so the `p.isEmpty()` test in the source is a
lookup-with-default-empty here. -/

structure JobData where
  visited : List Nat
  deriving DecidableEq, Repr

structure ProjectState where
  mVisitedFiles : List (Nat × String)
  mJobs : List (Nat × JobData)
  deriving DecidableEq, Repr

/-- Read of `mVisitedFiles[visitFileId]` followed by `p.isEmpty()`:
an absent key behaves as the default-constructed empty path. -/
def hashLookupPath (m : List (Nat × String)) (k : Nat) : String :=
  match m.find? (fun e => e.1 == k) with
  | some e => e.2
  | none => ""

/-- The write `p = path;` through the reference returned by `operator[]`:
replaces the entry for `k` when present, inserts it otherwise. -/
def hashSetPath (m : List (Nat × String)) (k : Nat) (v : String) :
    List (Nat × String) :=
  match m with
  | [] => [(k, v)]
  | e :: rest => if e.1 = k then (k, v) :: rest else e :: hashSetPath rest k v

/-- Source `data.job->visited.insert(visitFileId)` on the job stored under `key`
(`Set::insert` is idempotent). A missing key leaves the table unchanged
(the source asserts `mJobs.contains(key)`). -/
def jobsInsertVisited (jobs : List (Nat × JobData)) (key fid : Nat) :
    List (Nat × JobData) :=
  match jobs with
  | [] => []
  | (k, d) :: rest =>
    if k = key then
      (k, ⟨if fid ∈ d.visited then d.visited else fid :: d.visited⟩) :: rest
    else (k, d) :: jobsInsertVisited rest key fid

/-- The visited set of the job stored under `key` (empty when absent). -/
def jobsVisited (jobs : List (Nat × JobData)) (key : Nat) : List Nat :=
  match jobs.find? (fun e => e.1 == key) with
  | some e => e.2.visited
  | none => []

/-- Source `Project::visitFile` (Project.h lines 194-210). Returns the boolean
result together with the updated state. -/
def Project.visitFile (st : ProjectState) (visitFileId : Nat) (path : String)
    (key : Nat) : Bool × ProjectState :=
  let p := hashLookupPath st.mVisitedFiles visitFileId
  if p.isEmpty then
    let files := hashSetPath st.mVisitedFiles visitFileId path
    let jobs := if key ≠ 0 then jobsInsertVisited st.mJobs key visitFileId
                else st.mJobs
    (true, ⟨files, jobs⟩)
  else
    (false, st)

/-! ## CursorInfo and its serialization (ClangProject.h lines 19-46)

`CursorInfo` holds `uint32_t usr; int start, end; Project::Cursor::Kind
kind;`. The serializer writes the four fields with the kind cast through
`uint32_t`; the deserializer reads them back and casts the kind to
`Project::Cursor::Kind`. The rct `Serializer`/`Deserializer` stream is
modelled as a list of integer words: writing a field appends its value
exactly, reading consumes it exactly, which is what the byte-level codec
does for fixed-width integer fields. -/

/-- Modelled from the spec: `Project::Cursor::Kind` is declared in a header
outside src/ (CursorInfo.h); the spec data model lists Kind as one of
Declaration, Definition, Reference, MemberFunctionDeclaration,
MemberFunctionDefinition, and further variants, with an invalid default.
The numbering realises the cast `static_cast<uint32_t>(kind)`. -/
inductive CursorKind
  | invalid
  | declaration
  | definition
  | reference
  | memberFunctionDeclaration
  | memberFunctionDefinition
  deriving DecidableEq, Repr

/-- Source `static_cast<uint32_t>(b.kind)` in `operator<<`. -/
def CursorKind.toUInt32Val : CursorKind → Nat
  | .invalid => 0
  | .declaration => 1
  | .definition => 2
  | .reference => 3
  | .memberFunctionDeclaration => 4
  | .memberFunctionDefinition => 5

/-- Source `static_cast<Project::Cursor::Kind>(kind)` in `operator>>`. -/
def CursorKind.ofUInt32Val : Nat → CursorKind
  | 0 => .invalid
  | 1 => .declaration
  | 2 => .definition
  | 3 => .reference
  | 4 => .memberFunctionDeclaration
  | _ => .memberFunctionDefinition

structure CursorInfo where
  usr : Nat
  start : Int
  endOff : Int
  kind : CursorKind
  deriving DecidableEq, Repr

/-- Source `operator<<(Serializer&, const CursorInfo&)` (ClangProject.h 34-38):
`s << b.usr << b.start << b.end << static_cast<uint32_t>(b.kind)`. -/
def CursorInfo.serialize (c : CursorInfo) : List Int :=
  [(c.usr : Int), c.start, c.endOff, (c.kind.toUInt32Val : Int)]

/-- Source `operator>>(Deserializer&, CursorInfo&)` (ClangProject.h 40-46):
`s >> b.usr >> b.start >> b.end >> kind; b.kind = static_cast<...>(kind)`.
Fails (`none`) when the stream is too short; returns the value and the
remaining stream otherwise. -/
def CursorInfo.deserialize (s : List Int) : Option (CursorInfo × List Int) :=
  match s with
  | usr :: start :: e :: kind :: rest =>
    some (⟨usr.toNat, start, e, CursorKind.ofUInt32Val kind.toNat⟩, rest)
  | _ => none

/-! ## Symbol graph and merger

The members of `ClangProject` (ClangProject.h lines 126-133) form the
symbol graph: `depends, reverseDepends : DependSet`, `names`,
`usrs : Map<Location, CursorInfo>`, `decls, defs, refs : UsrSet`,
`fixIts : Map<Path, Set<FixIt>>`. A `Location` is a (file id, offset)
pair; maps-to-sets are modelled as boolean membership functions and
`usrs` as an optional-value function. -/

structure Loc where
  fileId : Nat
  offset : Nat
  deriving DecidableEq, Repr

@[ext]
structure Graph where
  decls : Nat → Loc → Bool
  defs : Nat → Loc → Bool
  refs : Nat → Loc → Bool
  names : String → Nat → Bool
  usrs : Loc → Option CursorInfo
  depends : Nat → Nat → Bool
  reverseDepends : Nat → Nat → Bool
  fixIts : Nat → FixIt → Bool

/-- The facts one parse job extracts from its translation unit (spec §3,
IndexResult): decls/defs/refs as usr-to-location membership, names,
location cursors, the primary file's outgoing include edges, and fix-its
keyed by file. `primary` is the job's primary FileId. -/
structure IndexResult where
  primary : Nat
  decls : Nat → Loc → Bool
  defs : Nat → Loc → Bool
  refs : Nat → Loc → Bool
  names : String → Nat → Bool
  usrs : Loc → Option CursorInfo
  includes : Nat → Bool
  fixIts : Nat → FixIt → Bool

/-- Modelled from the spec: `ClangProject::sync` (declared ClangProject.h
line 115, body not under src/). Per spec §4.5 and §9, merging an
IndexResult replaces the facts whose Location lies in the job's primary
file and unions the header-originated facts: for each fact map, entries at
the primary FileId are exactly those of the result, entries at other
FileIds are the union of the old graph's and the result's; `names` (not
location-keyed) is unioned; the primary's outgoing `depends` edges are
replaced by the result's include edges and `reverseDepends` is recomputed
to mirror them. -/
def Graph.merge (g : Graph) (r : IndexResult) : Graph where
  decls u l := if l.fileId = r.primary then r.decls u l else (g.decls u l || r.decls u l)
  defs u l := if l.fileId = r.primary then r.defs u l else (g.defs u l || r.defs u l)
  refs u l := if l.fileId = r.primary then r.refs u l else (g.refs u l || r.refs u l)
  names n u := g.names n u || r.names n u
  usrs l :=
    if l.fileId = r.primary then r.usrs l
    else match r.usrs l with
         | some c => some c
         | none => g.usrs l
  depends a b := if a = r.primary then r.includes b else g.depends a b
  reverseDepends b a := if a = r.primary then r.includes b else g.reverseDepends b a
  fixIts f x := if f = r.primary then r.fixIts f x else (g.fixIts f x || r.fixIts f x)

/-- The empty graph all indexing starts from. -/
def Graph.empty : Graph where
  decls _ _ := false
  defs _ _ := false
  refs _ _ := false
  names _ _ := false
  usrs _ := none
  depends _ _ := false
  reverseDepends _ _ := false
  fixIts _ _ := false

/-- A sequence of merges applied in job-completion order. -/
def Graph.mergeAll (g : Graph) (rs : List IndexResult) : Graph :=
  rs.foldl Graph.merge g

/-- The mutual-inverse invariant on the dependency maps (spec §8 property 2). -/
def Graph.DepInv (g : Graph) : Prop :=
  ∀ a b, g.depends a b = g.reverseDepends b a

/-- How a parse job can end without an IndexResult (spec §4.3): the
`invocationFailed` constructor is the spec's ParserInvocationFailed, the
`fatalDiagnostic` constructor is the spec's SyntaxFatal, and `cancelled`
is a dropped job. -/
inductive ParseFailure
  | invocationFailed
  | fatalDiagnostic
  | cancelled
  deriving DecidableEq, Repr

inductive ParseOutcome
  | success (r : IndexResult)
  | failed (e : ParseFailure)

/-- Modelled from the spec: `ClangProject::jobFinished` (declared
ClangProject.h line 114, body not under src/). Per spec §7, a successful
job's IndexResult is merged; a transient failure (ParserInvocationFailed
or SyntaxFatal) is logged and produces no merge, and a cancelled job is
dropped silently — in both cases the graph is returned unchanged. -/
def Graph.jobFinished (g : Graph) (out : ParseOutcome) : Graph :=
  match out with
  | .success r => g.merge r
  | .failed _ => g

/-! ## Job table and isIndexing

`Project::isIndexing` (Project.h line 111) is `return !mJobs.isEmpty();`.
The job table is modelled by the list of states of the jobs it holds. -/

inductive JobState
  | queued
  | parsing
  | merging
  | done
  | cancelled
  deriving DecidableEq, Repr

/-- Source `Project::isIndexing` (Project.h line 111): `!mJobs.isEmpty()`. -/
def isIndexing (mJobs : List JobState) : Bool :=
  !mJobs.isEmpty

/-- Modelled from the spec: the ParseJob lifecycle (spec §3 and §4.8;
`ClangProject::jobFinished` and the job bookkeeping are not under src/).
Jobs are created Queued on submission, advance Queued → Parsing →
Merging, and are destroyed after the merge; cancellation is reachable
from Queued and Parsing only and also removes the job from the table. -/
inductive JobStep : List JobState → List JobState → Prop
  | submit (t : List JobState) : JobStep t (JobState.queued :: t)
  | startParse (l r : List JobState) :
      JobStep (l ++ JobState.queued :: r) (l ++ JobState.parsing :: r)
  | startMerge (l r : List JobState) :
      JobStep (l ++ JobState.parsing :: r) (l ++ JobState.merging :: r)
  | finish (l r : List JobState) :
      JobStep (l ++ JobState.merging :: r) (l ++ r)
  | cancelQueued (l r : List JobState) :
      JobStep (l ++ JobState.queued :: r) (l ++ r)
  | cancelParsing (l r : List JobState) :
      JobStep (l ++ JobState.parsing :: r) (l ++ r)

/-- A job table reachable from the initial empty table. -/
def JobsReachable (t : List JobState) : Prop :=
  Relation.ReflTransGen JobStep [] t

/-! ## Cursor query (C8)

`ClangProject::cursor` (declared ClangProject.h line 81) reads the
`usrs : Map<Location, CursorInfo>` member. For the query the graph is
an explicit finite map so the lookup and the enclosing-span search are
executable. -/

structure QueryGraph where
  usrs : List (Loc × CursorInfo)
  deriving DecidableEq, Repr

/-- The empty cursor returned when nothing is recorded at or around the
location (spec §4.6): null usr, empty extent, invalid kind. -/
def CursorInfo.emptyCursor : CursorInfo :=
  ⟨0, -1, -1, .invalid⟩

/-- An entry of `usrs` whose span encloses the queried location: same
file, `start ≤ loc.offset ≤ end`. -/
def enclosingEntry (loc : Loc) (e : Loc × CursorInfo) : Bool :=
  e.1.fileId == loc.fileId
    && decide (e.2.start ≤ (loc.offset : Int))
    && decide ((loc.offset : Int) ≤ e.2.endOff)

/-- Modelled from the spec: `ClangProject::cursor` (declared ClangProject.h
line 81, body not under src/). Per spec §4.6: look up
`locationCursors[location]`; if absent, take the narrowest enclosing
CursorInfo (maximal start among entries of the same file whose span covers
the location); if none, return the empty cursor. The query is const: the
graph is returned untouched. -/
def QueryGraph.cursor (g : QueryGraph) (loc : Loc) : CursorInfo × QueryGraph :=
  match g.usrs.find? (fun e => e.1 == loc) with
  | some e => (e.2, g)
  | none =>
    let best := (g.usrs.filter (enclosingEntry loc)).foldl
      (fun acc e =>
        match acc with
        | none => some e.2
        | some c => if c.start < e.2.start then some e.2 else acc)
      none
    match best with
    | some c => (c, g)
    | none => (CursorInfo.emptyCursor, g)

/-! ## USR interning (C9)

`ClangProject::usrMap()` (ClangProject.h lines 101 and 137) exposes the
process-wide `LockingStringMap umap`; its definition (StringMap.h) is not
under src/. -/

/-- Modelled from the spec: the USR Interning Table (spec §4.1), a mapping
from USR string to a dense id with insert-or-get. The map is an
association list paired with the next id to allocate. -/
structure LockingStringMap where
  map : List (String × Nat)
  nextId : Nat
  deriving DecidableEq, Repr

/-- Modelled from the spec: `intern(s)` returns the existing id when `s`
is present and otherwise allocates the next id and stores the mapping. -/
def LockingStringMap.intern (st : LockingStringMap) (s : String) :
    Nat × LockingStringMap :=
  match st.map.find? (fun e => e.1 == s) with
  | some e => (e.2, st)
  | none => (st.nextId, ⟨st.map ++ [(s, st.nextId)], st.nextId + 1⟩)

def LockingStringMap.emptyMap : LockingStringMap :=
  ⟨[], 0⟩

/-- Interning a sequence of strings in order, dropping the returned ids. -/
def applyInterns (st : LockingStringMap) (l : List String) : LockingStringMap :=
  l.foldl (fun acc s => (acc.intern s).2) st

/-- A table reachable by interning some sequence from the empty table. -/
def internAll (l : List String) : LockingStringMap :=
  applyInterns LockingStringMap.emptyMap l

/-! ## Theorems -/

/-- C1: merging the same IndexResult twice into the symbol graph yields the
same graph as merging it once — for every graph `G` (in particular every
reachable one) and every IndexResult `r`,
`merge (merge G r) r = merge G r`: header-originated facts are combined by
set union (idempotent) and facts located in the job's primary file replace
the prior facts (idempotent). -/
theorem merge_idempotent (g : Graph) (r : IndexResult) :
    (g.merge r).merge r = g.merge r := by
  refine Graph.ext ?_ ?_ ?_ ?_ ?_ ?_ ?_ ?_
  · funext u l
    simp only [Graph.merge]
    by_cases h : l.fileId = r.primary <;> simp [h, Bool.or_assoc]
  · funext u l
    simp only [Graph.merge]
    by_cases h : l.fileId = r.primary <;> simp [h, Bool.or_assoc]
  · funext u l
    simp only [Graph.merge]
    by_cases h : l.fileId = r.primary <;> simp [h, Bool.or_assoc]
  · funext n u
    simp only [Graph.merge]
    simp [Bool.or_assoc]
  · funext l
    simp only [Graph.merge]
    by_cases h : l.fileId = r.primary
    · simp [h]
    · simp only [h, if_false]
      cases hr : r.usrs l <;> simp [hr]
  · funext a b
    simp only [Graph.merge]
    by_cases h : a = r.primary <;> simp [h]
  · funext b a
    simp only [Graph.merge]
    by_cases h : a = r.primary <;> simp [h]
  · funext f x
    simp only [Graph.merge]
    by_cases h : f = r.primary <;> simp [h, Bool.or_assoc]

/-- One merge preserves the dependency-map inverse invariant. -/
lemma merge_depInv (g : Graph) (r : IndexResult) (h : g.DepInv) :
    (g.merge r).DepInv := by
  intro a b
  simp only [Graph.merge]
  by_cases ha : a = r.primary <;> simp [ha, h a b]

/-- C2: the dependency maps are mutual inverses as an invariant preserved
by every merge — after any sequence of merges starting from the empty
graph, `b ∈ depends[a] ⇔ a ∈ reverseDepends[b]` for all FileIds `a, b`. -/
theorem mergeAll_depInv (rs : List IndexResult) :
    (Graph.empty.mergeAll rs).DepInv := by
  have hgen : ∀ (rs : List IndexResult) (g : Graph), g.DepInv →
      (g.mergeAll rs).DepInv := by
    intro rs
    induction rs with
    | nil => intro g hg; exact hg
    | cons r rest ih =>
      intro g hg
      exact ih (g.merge r) (merge_depInv g r hg)
  exact hgen rs Graph.empty (fun a b => rfl)

/-- C3: when a parse job fails with ParserInvocationFailed (here
`invocationFailed`) or SyntaxFatal (here `fatalDiagnostic`), no merge
occurs and the symbol graph is unchanged — every fact previously recorded
(decls, defs, refs, names, cursors, dependencies, fixIts), in particular
those of the job's primary FileId, is retained exactly. -/
theorem jobFinished_transient_retains (g : Graph) (out : ParseOutcome)
    (h : out = .failed .invocationFailed ∨ out = .failed .fatalDiagnostic) :
    (g.jobFinished out).decls = g.decls ∧
    (g.jobFinished out).defs = g.defs ∧
    (g.jobFinished out).refs = g.refs ∧
    (g.jobFinished out).names = g.names ∧
    (g.jobFinished out).usrs = g.usrs ∧
    (g.jobFinished out).depends = g.depends ∧
    (g.jobFinished out).fixIts = g.fixIts ∧
    g.jobFinished out = g := by
  rcases h with h | h <;> subst h <;>
    exact ⟨rfl, rfl, rfl, rfl, rfl, rfl, rfl, rfl⟩

/-- C3 witness: a concrete failed job against the empty graph. -/
theorem jobFinished_transient_retains_witness :
    (ParseOutcome.failed .invocationFailed = ParseOutcome.failed .invocationFailed ∨
     ParseOutcome.failed .invocationFailed = ParseOutcome.failed .fatalDiagnostic) ∧
    Graph.empty.jobFinished (ParseOutcome.failed .invocationFailed) = Graph.empty :=
  ⟨Or.inl rfl,
   (jobFinished_transient_retains Graph.empty
     (ParseOutcome.failed .invocationFailed) (Or.inl rfl)).2.2.2.2.2.2.2⟩

/-- C6 counterexample: two distinct FixIts sharing the same start offset
satisfy none of `a < b`, `b < a`, `a == b` — `operator<` compares only
`start` while `operator==` compares all three fields, so the trichotomy
claimed over `<` and `==` fails. -/
theorem fixItLt_trichotomyFails :
    FixIt.lt ⟨0, 1, "x"⟩ ⟨0, 2, "y"⟩ = false ∧
    FixIt.lt ⟨0, 2, "y"⟩ ⟨0, 1, "x"⟩ = false ∧
    FixIt.eqOp ⟨0, 1, "x"⟩ ⟨0, 2, "y"⟩ = false := by
  refine ⟨rfl, rfl, ?_⟩
  decide

/-- C6 amended: `FixIt::operator<` is a strict weak order keyed on the
start offset: for every pair `a, b` exactly one of `a < b`, `b < a`, or
`a.start = b.start` holds (and whenever `a < b` or `b < a` holds the two
FixIts are also `!=`), so sorting by `operator<` is well defined for all
inputs, two distinct FixIts with equal start being tied rather than
ordered. -/
theorem fixItLt_trichotomy_by_start (a b : FixIt) :
    (FixIt.lt a b = true ∧ FixIt.lt b a = false ∧ FixIt.eqOp a b = false ∧
       a.start ≠ b.start) ∨
    (FixIt.lt b a = true ∧ FixIt.lt a b = false ∧ FixIt.eqOp a b = false ∧
       a.start ≠ b.start) ∨
    (a.start = b.start ∧ FixIt.lt a b = false ∧ FixIt.lt b a = false) := by
  rcases Nat.lt_trichotomy a.start b.start with h | h | h
  · refine Or.inl ⟨?_, ?_, ?_, Nat.ne_of_lt h⟩
    · simp [FixIt.lt, h]
    · simp [FixIt.lt, Nat.lt_asymm h]
    · simp [FixIt.eqOp, Nat.ne_of_lt h]
  · refine Or.inr (Or.inr ⟨h, ?_, ?_⟩) <;> simp [FixIt.lt, h]
  · refine Or.inr (Or.inl ⟨?_, ?_, ?_, (Nat.ne_of_lt h).symm⟩)
    · simp [FixIt.lt, h]
    · simp [FixIt.lt, Nat.lt_asymm h]
    · simp [FixIt.eqOp, (Nat.ne_of_lt h).symm]

/-- C7: serialization round-trips — for every CursorInfo `c` (any usr,
start, end and any Kind value), writing `c` with the Serializer and
reading it back with the Deserializer yields a CursorInfo equal to `c`
in all four fields, the kind surviving the casts through `uint32_t`. -/
theorem cursorInfo_roundTrip (c : CursorInfo) :
    CursorInfo.deserialize (CursorInfo.serialize c) = some (c, []) := by
  cases c with
  | mk usr start endOff kind =>
    have hk : CursorKind.ofUInt32Val kind.toUInt32Val = kind := by
      cases kind <;> rfl
    simp [CursorInfo.serialize, CursorInfo.deserialize, hk, Int.toNat_natCast]

/-- Every job in a reachable job table is Queued, Parsing or Merging:
finishing a merge destroys the job and cancellation removes it, so Done
and Cancelled states never sit in the table. -/
lemma jobsReachable_states (t : List JobState) (h : JobsReachable t) :
    ∀ s ∈ t, s = JobState.queued ∨ s = JobState.parsing ∨ s = JobState.merging := by
  induction h with
  | refl => intro s hs; exact absurd hs (List.not_mem_nil s)
  | tail _ hstep ih =>
    intro s hs
    cases hstep with
    | submit t1 =>
      rcases List.mem_cons.mp hs with h1 | h1
      · exact Or.inl h1
      · exact ih s h1
    | startParse l r =>
      rcases List.mem_append.mp hs with h1 | h1
      · exact ih s (List.mem_append_left _ h1)
      · rcases List.mem_cons.mp h1 with h2 | h2
        · exact Or.inr (Or.inl h2)
        · exact ih s (List.mem_append_right _ (List.mem_cons_of_mem _ h2))
    | startMerge l r =>
      rcases List.mem_append.mp hs with h1 | h1
      · exact ih s (List.mem_append_left _ h1)
      · rcases List.mem_cons.mp h1 with h2 | h2
        · exact Or.inr (Or.inr h2)
        · exact ih s (List.mem_append_right _ (List.mem_cons_of_mem _ h2))
    | finish l r =>
      rcases List.mem_append.mp hs with h1 | h1
      · exact ih s (List.mem_append_left _ h1)
      · exact ih s (List.mem_append_right _ (List.mem_cons_of_mem _ h1))
    | cancelQueued l r =>
      rcases List.mem_append.mp hs with h1 | h1
      · exact ih s (List.mem_append_left _ h1)
      · exact ih s (List.mem_append_right _ (List.mem_cons_of_mem _ h1))
    | cancelParsing l r =>
      rcases List.mem_append.mp hs with h1 | h1
      · exact ih s (List.mem_append_left _ h1)
      · exact ih s (List.mem_append_right _ (List.mem_cons_of_mem _ h1))

/-- C4: `isIndexing()` returns true if and only if some job in the table
is Queued, Parsing or Merging; it returns false exactly when the table
holds no job in any of those three states. (`Project::isIndexing` tests
table non-emptiness; on every reachable table the two coincide because
finished and cancelled jobs leave the table.) -/
theorem isIndexing_iff_active (t : List JobState) (h : JobsReachable t) :
    isIndexing t = true ↔
      ∃ s ∈ t, s = JobState.queued ∨ s = JobState.parsing ∨ s = JobState.merging := by
  constructor
  · intro hi
    cases t with
    | nil => simp [isIndexing] at hi
    | cons s rest =>
      exact ⟨s, List.mem_cons_self s rest,
        jobsReachable_states _ h s (List.mem_cons_self s rest)⟩
  · rintro ⟨s, hs, -⟩
    cases t with
    | nil => exact absurd hs (List.not_mem_nil s)
    | cons a rest => rfl

/-- C4 witness: the table holding one freshly submitted job. -/
theorem isIndexing_iff_active_witness :
    JobsReachable [JobState.queued] ∧
    (isIndexing [JobState.queued] = true ↔
      ∃ s ∈ [JobState.queued],
        s = JobState.queued ∨ s = JobState.parsing ∨ s = JobState.merging) :=
  ⟨Relation.ReflTransGen.single (JobStep.submit []),
   isIndexing_iff_active [JobState.queued]
     (Relation.ReflTransGen.single (JobStep.submit []))⟩

/-- Lemma: `UnitCache::get` never lengthens the list. -/
lemma unitCache_get_length (units : List (String × Nat)) (path : String) :
    (UnitCache.get units path).2.length ≤ units.length := by
  induction units with
  | nil => simp [UnitCache.get]
  | cons e rest ih =>
    obtain ⟨p, u⟩ := e
    by_cases h : p = path
    · simp [UnitCache.get, h]
    · simp only [UnitCache.get, h, if_false, List.length_cons]
      exact Nat.succ_le_succ ih

/-- Lemma: `UnitCache::put` keeps the list within `MaxSize`. -/
lemma unitCache_put_length (units : List (String × Nat)) (path : String) (u : Nat)
    (hcap : units.length ≤ UnitCache.MaxSize) :
    (UnitCache.put units path u).length ≤ UnitCache.MaxSize := by
  simp only [UnitCache.MaxSize] at hcap ⊢
  unfold UnitCache.put
  by_cases h : UnitCache.MaxSize < (units ++ [(path, u)]).length
  · rw [if_pos h]
    simp only [UnitCache.MaxSize, List.length_append, List.length_cons,
      List.length_nil] at h
    simp only [List.length_tail, List.length_append, List.length_cons,
      List.length_nil]
    omega
  · rw [if_neg h]
    simp only [UnitCache.MaxSize, List.length_append, List.length_cons,
      List.length_nil] at h
    simp only [List.length_append, List.length_cons, List.length_nil]
    omega

/-- Lemma: `UnitCache::put` on a full cache appends at the back and pops the
front entry. -/
lemma unitCache_put_evicts (units : List (String × Nat)) (path : String) (u : Nat)
    (hfull : units.length = UnitCache.MaxSize) :
    UnitCache.put units path u = units.tail ++ [(path, u)] := by
  cases units with
  | nil => simp [UnitCache.MaxSize] at hfull
  | cons e rest =>
    simp only [List.length_cons, UnitCache.MaxSize] at hfull
    have hlen : UnitCache.MaxSize < ((e :: rest) ++ [(path, u)]).length := by
      simp only [UnitCache.MaxSize, List.length_append, List.length_cons,
        List.length_nil]
      omega
    unfold UnitCache.put
    rw [if_pos hlen]
    simp

/-- A hit in `UnitCache::get` returns the handle of the first matching
entry and erases exactly that entry. -/
lemma unitCache_get_hit (units : List (String × Nat)) (path : String) (v : Nat)
    (h : (UnitCache.get units path).1 = some v) :
    ∃ l r, units = l ++ (path, v) :: r ∧ (∀ e ∈ l, e.1 ≠ path) ∧
      (UnitCache.get units path).2 = l ++ r := by
  induction units with
  | nil => simp [UnitCache.get] at h
  | cons e rest ih =>
    obtain ⟨p, u⟩ := e
    by_cases hp : p = path
    · have hg : UnitCache.get ((p, u) :: rest) path = (some u, rest) := by
        simp [UnitCache.get, hp]
      rw [hg] at h
      have huv : u = v := by simpa using h
      subst huv
      exact ⟨[], rest, by simp [hp], by simp, by rw [hg]; rfl⟩
    · simp only [UnitCache.get, hp, if_false] at h
      obtain ⟨l, r, h1, h2, h3⟩ := ih h
      refine ⟨(p, u) :: l, r, by simp [h1], ?_, ?_⟩
      · intro e he
        rcases List.mem_cons.mp he with h4 | h4
        · subst h4; exact hp
        · exact h2 e h4
      · simp only [UnitCache.get, hp, if_false, h3, List.cons_append]

/-- C5 counterexample: a hit in `UnitCache::get` does not move the entry
to the front while keeping it in the cache — it erases the entry: on the
one-entry cache for path "/a" a hit returns the handle and leaves the
cache empty. -/
theorem unitCache_get_hit_not_kept :
    UnitCache.get [("/a", 1)] "/a" = (some 1, []) := by
  simp [UnitCache.get]

/-- C5 amended: the reparse cache is a fixed-capacity buffer keyed by
primary path: starting within capacity, neither `put` nor `get` leaves
more than MaxSize (5) entries; an insertion past capacity evicts the
front (least-recently inserted) entry; and a `get` that hits returns the
handle of the first matching entry and removes that entry from the cache
(the caller re-inserts it through `put`/`add`), rather than keeping it. -/
theorem unitCache_lru_spec (units : List (String × Nat)) (path : String)
    (u v : Nat) (hcap : units.length ≤ UnitCache.MaxSize) :
    ((UnitCache.put units path u).length ≤ UnitCache.MaxSize ∧
      (UnitCache.get units path).2.length ≤ UnitCache.MaxSize) ∧
    (units.length = UnitCache.MaxSize →
      UnitCache.put units path u = units.tail ++ [(path, u)]) ∧
    ((UnitCache.get units path).1 = some v →
      ∃ l r, units = l ++ (path, v) :: r ∧ (∀ e ∈ l, e.1 ≠ path) ∧
        (UnitCache.get units path).2 = l ++ r) :=
  ⟨⟨unitCache_put_length units path u hcap,
    le_trans (unitCache_get_length units path) hcap⟩,
   fun hfull => unitCache_put_evicts units path u hfull,
   fun h => unitCache_get_hit units path v h⟩

/-- C5 witness: a full five-entry cache with a hit on "/c". -/
theorem unitCache_lru_spec_witness :
    ([("/a", 1), ("/b", 2), ("/c", 3), ("/d", 4), ("/e", 5)].length
        ≤ UnitCache.MaxSize) ∧
    ((UnitCache.put [("/a", 1), ("/b", 2), ("/c", 3), ("/d", 4), ("/e", 5)]
          "/c" 9).length ≤ UnitCache.MaxSize ∧
      (UnitCache.get [("/a", 1), ("/b", 2), ("/c", 3), ("/d", 4), ("/e", 5)]
          "/c").2.length ≤ UnitCache.MaxSize) ∧
    ([("/a", 1), ("/b", 2), ("/c", 3), ("/d", 4), ("/e", 5)].length
        = UnitCache.MaxSize →
      UnitCache.put [("/a", 1), ("/b", 2), ("/c", 3), ("/d", 4), ("/e", 5)]
          "/c" 9
        = [("/a", 1), ("/b", 2), ("/c", 3), ("/d", 4), ("/e", 5)].tail
            ++ [("/c", 9)]) ∧
    ((UnitCache.get [("/a", 1), ("/b", 2), ("/c", 3), ("/d", 4), ("/e", 5)]
          "/c").1 = some 3 →
      ∃ l r, [("/a", 1), ("/b", 2), ("/c", 3), ("/d", 4), ("/e", 5)]
          = l ++ ("/c", 3) :: r ∧ (∀ e ∈ l, e.1 ≠ "/c") ∧
        (UnitCache.get [("/a", 1), ("/b", 2), ("/c", 3), ("/d", 4), ("/e", 5)]
            "/c").2 = l ++ r) :=
  ⟨by decide,
   unitCache_lru_spec [("/a", 1), ("/b", 2), ("/c", 3), ("/d", 4), ("/e", 5)]
     "/c" 9 3 (by decide)⟩

/-- C8: for every location at which no CursorInfo is recorded and for
which no enclosing CursorInfo exists in the graph, the query
`cursor(location)` returns the empty cursor, is total (no failure path),
and leaves the graph unchanged. -/
theorem cursor_unindexed_empty (g : QueryGraph) (loc : Loc)
    (habs : g.usrs.find? (fun e => e.1 == loc) = none)
    (hencl : ∀ e ∈ g.usrs, enclosingEntry loc e = false) :
    g.cursor loc = (CursorInfo.emptyCursor, g) := by
  have hfilter : g.usrs.filter (enclosingEntry loc) = [] := by
    rw [List.filter_eq_nil_iff]
    intro e he
    simp [hencl e he]
  unfold QueryGraph.cursor
  rw [habs, hfilter]
  rfl

/-- C8 witness: a graph holding one cursor that neither sits at nor
encloses the queried location. -/
theorem cursor_unindexed_empty_witness :
    ((QueryGraph.mk [(⟨1, 10⟩, ⟨7, 10, 30, .definition⟩)]).usrs.find?
        (fun e => e.1 == (⟨1, 50⟩ : Loc)) = none) ∧
    (∀ e ∈ (QueryGraph.mk [(⟨1, 10⟩, ⟨7, 10, 30, .definition⟩)]).usrs,
      enclosingEntry ⟨1, 50⟩ e = false) ∧
    (QueryGraph.mk [(⟨1, 10⟩, ⟨7, 10, 30, .definition⟩)]).cursor ⟨1, 50⟩
      = (CursorInfo.emptyCursor, QueryGraph.mk [(⟨1, 10⟩, ⟨7, 10, 30, .definition⟩)]) :=
  ⟨by decide, by decide,
   cursor_unindexed_empty (QueryGraph.mk [(⟨1, 10⟩, ⟨7, 10, 30, .definition⟩)])
     ⟨1, 50⟩ (by decide) (by decide)⟩

/-- An entry found by the key predicate carries that key. -/
lemma strMap_find_key (map : List (String × Nat)) (s : String)
    (e : String × Nat) (h : map.find? (fun x => x.1 == s) = some e) :
    e.1 = s := by
  have := List.find?_some h
  simpa using this

/-- After interning `s` the table maps `s` to the id intern returned. -/
lemma intern_find_self (st : LockingStringMap) (s : String) :
    (st.intern s).2.map.find? (fun e => e.1 == s) = some (s, (st.intern s).1) := by
  unfold LockingStringMap.intern
  cases hf : st.map.find? (fun e => e.1 == s) with
  | some e =>
    obtain ⟨e1, e2⟩ := e
    have hk := strMap_find_key st.map s (e1, e2) hf
    subst hk
    simpa using hf
  | none =>
    simp only
    rw [List.find?_append, hf]
    simp

/-- Interning another string never disturbs an existing entry. -/
lemma intern_preserves_find (st : LockingStringMap) (s t : String)
    (e : String × Nat) (h : st.map.find? (fun x => x.1 == s) = some e) :
    (st.intern t).2.map.find? (fun x => x.1 == s) = some e := by
  unfold LockingStringMap.intern
  cases hf : st.map.find? (fun x => x.1 == t) with
  | some e2 => simpa using h
  | none =>
    simp only
    rw [List.find?_append, h]
    rfl

/-- Interning any further sequence never disturbs an existing entry. -/
lemma applyInterns_preserves_find (l : List String) (st : LockingStringMap)
    (s : String) (e : String × Nat)
    (h : st.map.find? (fun x => x.1 == s) = some e) :
    (applyInterns st l).map.find? (fun x => x.1 == s) = some e := by
  induction l generalizing st with
  | nil => exact h
  | cons t rest ih => exact ih (st.intern t).2 (intern_preserves_find st s t e h)

/-- Interning a string already in the table returns its stored id and
leaves the table unchanged. -/
lemma intern_found (st : LockingStringMap) (s : String) (e : String × Nat)
    (h : st.map.find? (fun x => x.1 == s) = some e) :
    st.intern s = (e.2, st) := by
  unfold LockingStringMap.intern
  rw [h]

/-- Interning an absent string allocates the next id and appends the
entry. -/
lemma intern_notFound (st : LockingStringMap) (s : String)
    (h : st.map.find? (fun x => x.1 == s) = none) :
    st.intern s = (st.nextId, ⟨st.map ++ [(s, st.nextId)], st.nextId + 1⟩) := by
  unfold LockingStringMap.intern
  rw [h]

/-- Well-formedness of the interning table: every stored id is below the
allocation counter and no id is stored twice. -/
def LockingStringMap.WF (st : LockingStringMap) : Prop :=
  (∀ e ∈ st.map, e.2 < st.nextId) ∧ (st.map.map Prod.snd).Nodup

/-- Lemma: `intern` preserves well-formedness. -/
lemma intern_WF (st : LockingStringMap) (s : String) (h : st.WF) :
    (st.intern s).2.WF := by
  unfold LockingStringMap.intern
  cases hf : st.map.find? (fun e => e.1 == s) with
  | some e => simpa using h
  | none =>
    obtain ⟨hlt, hnd⟩ := h
    refine ⟨?_, ?_⟩
    · intro e he
      rcases List.mem_append.mp he with h1 | h1
      · exact Nat.lt_succ_of_lt (hlt e h1)
      · rcases List.mem_cons.mp h1 with h2 | h2
        · subst h2; exact Nat.lt_succ_self _
        · exact absurd h2 (List.not_mem_nil e)
    · rw [List.map_append, List.nodup_append]
      refine ⟨hnd, by simp, ?_⟩
      intro a ha hb
      simp only [List.map_cons, List.map_nil, List.mem_cons,
        List.not_mem_nil, or_false] at hb
      subst hb
      obtain ⟨e, he, he2⟩ := List.mem_map.mp ha
      exact absurd he2 (Nat.ne_of_lt (hlt e he))

/-- Every table reached by interning from the empty table is well formed. -/
lemma internAll_WF (l : List String) : (internAll l).WF := by
  have hgen : ∀ (l : List String) (st : LockingStringMap), st.WF →
      (applyInterns st l).WF := by
    intro l
    induction l with
    | nil => intro st h; exact h
    | cons t rest ih => intro st h; exact ih (st.intern t).2 (intern_WF st t h)
  exact hgen l LockingStringMap.emptyMap ⟨fun e he => absurd he (List.not_mem_nil e), List.nodup_nil⟩

/-- In a well-formed table, entries with distinct keys carry distinct ids. -/
lemma strMap_WF_key_inj (st : LockingStringMap) (h : st.WF)
    (e1 e2 : String × Nat) (h1 : e1 ∈ st.map) (h2 : e2 ∈ st.map)
    (hne : e1.1 ≠ e2.1) : e1.2 ≠ e2.2 := by
  intro heq
  exact hne (congrArg Prod.fst (List.inj_on_of_nodup_map h.2 h1 h2 heq))

/-- C9: USR interning is deterministic and injective — in any table built
by interning a sequence `l` from the empty table, interning `s1` and then
any further sequence `l2` leaves a later `intern s1` returning the id the
first call returned, and for distinct strings `s1 ≠ s2` the id of `s2`
differs from the id of `s1`. -/
theorem intern_deterministic_injective (l l2 : List String) (s1 s2 : String)
    (hne : s1 ≠ s2) :
    ((applyInterns ((internAll l).intern s1).2 l2).intern s1).1
        = ((internAll l).intern s1).1 ∧
    ((((internAll l).intern s1).2).intern s2).1 ≠ ((internAll l).intern s1).1 := by
  constructor
  · have h1 := intern_find_self (internAll l) s1
    have h2 := applyInterns_preserves_find l2 _ s1 _ h1
    rw [intern_found _ _ _ h2]
  · have hwf : (internAll l).WF := internAll_WF l
    set st := internAll l with hst
    cases hf1 : st.map.find? (fun e => e.1 == s1) with
    | some e1 =>
      rw [intern_found st s1 e1 hf1]
      cases hf2 : st.map.find? (fun e => e.1 == s2) with
      | some e2 =>
        rw [intern_found st s2 e2 hf2]
        refine strMap_WF_key_inj st hwf e2 e1
          (List.mem_of_find?_eq_some hf2) (List.mem_of_find?_eq_some hf1) ?_
        rw [strMap_find_key _ _ _ hf1, strMap_find_key _ _ _ hf2]
        exact hne.symm
      | none =>
        rw [intern_notFound st s2 hf2]
        exact (Nat.ne_of_lt (hwf.1 e1 (List.mem_of_find?_eq_some hf1))).symm
    | none =>
      rw [intern_notFound st s1 hf1]
      have hsingle : List.find? (fun x => x.1 == s2) [(s1, st.nextId)] = none := by
        apply List.find?_eq_none.mpr
        intro x hx
        rcases List.mem_cons.mp hx with h2 | h2
        · subst h2; simp [hne]
        · exact absurd h2 (List.not_mem_nil x)
      have hfind : (st.map ++ [(s1, st.nextId)]).find? (fun x => x.1 == s2)
          = st.map.find? (fun x => x.1 == s2) := by
        rw [List.find?_append, hsingle]
        cases st.map.find? (fun x => x.1 == s2) <;> rfl
      cases hf2 : st.map.find? (fun x => x.1 == s2) with
      | some e2 =>
        rw [hf2] at hfind
        rw [intern_found ⟨st.map ++ [(s1, st.nextId)], st.nextId + 1⟩ s2 e2 hfind]
        exact (Nat.ne_of_lt (hwf.1 e2 (List.mem_of_find?_eq_some hf2)))
      | none =>
        rw [hf2] at hfind
        rw [intern_notFound ⟨st.map ++ [(s1, st.nextId)], st.nextId + 1⟩ s2 hfind]
        exact Nat.succ_ne_self st.nextId

/-- C9 witness: a table built from two strings, re-interning "a" after a
further intern, and interning the distinct string "c". -/
theorem intern_deterministic_injective_witness :
    ("a" ≠ "c") ∧
    (((applyInterns ((internAll ["a", "b"]).intern ("a")).2 ["d"]).intern ("a")).1
        = ((internAll ["a", "b"]).intern ("a")).1 ∧
     ((((internAll ["a", "b"]).intern ("a")).2).intern ("c")).1
        ≠ ((internAll ["a", "b"]).intern ("a")).1) :=
  ⟨by decide, intern_deterministic_injective ["a", "b"] ["d"] ("a") ("c") (by decide)⟩

/-- Writing a path under a file id makes it the one found for that id. -/
lemma hashSetPath_find (m : List (Nat × String)) (k : Nat) (v : String) :
    (hashSetPath m k v).find? (fun e => e.1 == k) = some (k, v) := by
  induction m with
  | nil => simp [hashSetPath]
  | cons e rest ih =>
    by_cases h : e.1 = k
    · simp [hashSetPath, h]
    · simp only [hashSetPath, h, if_false]
      rw [List.find?_cons_of_neg, ih]
      simp [h]

/-- Looking up a freshly written path returns it. -/
lemma hashSetPath_lookup (m : List (Nat × String)) (k : Nat) (v : String) :
    hashLookupPath (hashSetPath m k v) k = v := by
  unfold hashLookupPath
  rw [hashSetPath_find]

/-- Inserting into the visited set of a job present in the table makes the
file id a member of that job's visited set. -/
lemma jobsInsertVisited_mem (jobs : List (Nat × JobData)) (key fid : Nat)
    (h : key ∈ jobs.map Prod.fst) :
    fid ∈ jobsVisited (jobsInsertVisited jobs key fid) key := by
  induction jobs with
  | nil => simp at h
  | cons e rest ih =>
    obtain ⟨k, d⟩ := e
    by_cases hk : k = key
    · have hins : jobsInsertVisited ((k, d) :: rest) key fid
          = (k, ⟨if fid ∈ d.visited then d.visited else fid :: d.visited⟩) :: rest := by
        simp [jobsInsertVisited, hk]
      unfold jobsVisited
      rw [hins, List.find?_cons_of_pos _ (by simp [hk])]
      by_cases hm : fid ∈ d.visited <;> simp [hm]
    · simp only [List.map_cons, List.mem_cons] at h
      rcases h with h | h
    -- k ≠ key rules out the head
      · exact absurd h.symm hk
      · simp only [jobsInsertVisited, hk, if_false]
        unfold jobsVisited
        rw [List.find?_cons_of_neg _ (by simp [hk])]
        exact ih h

/-- C10 counterexample: `visitFile` does not return true exactly when no
path was previously recorded. Starting from the empty state,
`visitFile 1 "" 0` returns true and records the empty path under file id
1; a second call `visitFile 1 "/a" 0` still returns true although the
first call had recorded a path for file id 1, because the recorded path
is empty and `visitFile` only tests `p.isEmpty()`. -/
theorem visitFile_emptyPath_counterexample :
    (Project.visitFile ⟨[], []⟩ 1 "" 0).1 = true ∧
    (Project.visitFile (Project.visitFile ⟨[], []⟩ 1 "" 0).2 1 "/a" 0).1 = true := by
  constructor <;> rfl

/-- C10 amended: for every call `visitFile(fileId, path, key)` with fileId
nonzero (and, mirroring the source's assert, a job present under `key`
whenever `key` is nonzero): it returns true exactly when the path
currently recorded for fileId is absent or empty; when it returns true it
records `path` under fileId and, if `key` is nonzero, inserts fileId into
the visited set of the job stored under `key`; when it returns false the
visited-files map and every job's visited set are left unchanged. -/
theorem visitFile_spec (st : ProjectState) (fid : Nat) (path : String)
    (key : Nat) (hfid : fid ≠ 0)
    (hkey : key ≠ 0 → key ∈ st.mJobs.map Prod.fst) :
    ((Project.visitFile st fid path key).1 = true ↔
      (hashLookupPath st.mVisitedFiles fid).isEmpty = true) ∧
    ((Project.visitFile st fid path key).1 = true →
      hashLookupPath (Project.visitFile st fid path key).2.mVisitedFiles fid
          = path ∧
      (key ≠ 0 →
        fid ∈ jobsVisited (Project.visitFile st fid path key).2.mJobs key)) ∧
    ((Project.visitFile st fid path key).1 = false →
      (Project.visitFile st fid path key).2 = st) := by
  by_cases hp : (hashLookupPath st.mVisitedFiles fid).isEmpty
  · refine ⟨by simp [Project.visitFile, hp], ⟨fun _ => ⟨?_, fun hk => ?_⟩, ?_⟩⟩
    · simp only [Project.visitFile, hp, if_true]
      exact hashSetPath_lookup st.mVisitedFiles fid path
    · simp only [Project.visitFile, hp, if_true, hk, ne_eq,
        not_false_eq_true, if_pos]
      exact jobsInsertVisited_mem st.mJobs key fid (hkey hk)
    · intro hfalse
      simp [Project.visitFile, hp] at hfalse
  · refine ⟨by simp [Project.visitFile, hp], ⟨fun htrue => ?_, fun _ => ?_⟩⟩
    · simp [Project.visitFile, hp] at htrue
    · simp [Project.visitFile, hp]

/-- C10 witness: empty visited-files map, one job under key 7; visiting
file 1 succeeds and updates both structures. -/
theorem visitFile_spec_witness :
    ((1 : Nat) ≠ 0) ∧
    ((7 : Nat) ≠ 0 → (7 : Nat) ∈ ([(7, ⟨[]⟩)] : List (Nat × JobData)).map Prod.fst) ∧
    (((Project.visitFile ⟨[], [(7, ⟨[]⟩)]⟩ 1 "/a" 7).1 = true ↔
      (hashLookupPath [] 1).isEmpty = true) ∧
    ((Project.visitFile ⟨[], [(7, ⟨[]⟩)]⟩ 1 "/a" 7).1 = true →
      hashLookupPath (Project.visitFile ⟨[], [(7, ⟨[]⟩)]⟩ 1 "/a" 7).2.mVisitedFiles 1
          = "/a" ∧
      ((7 : Nat) ≠ 0 →
        1 ∈ jobsVisited (Project.visitFile ⟨[], [(7, ⟨[]⟩)]⟩ 1 "/a" 7).2.mJobs 7)) ∧
    ((Project.visitFile ⟨[], [(7, ⟨[]⟩)]⟩ 1 "/a" 7).1 = false →
      (Project.visitFile ⟨[], [(7, ⟨[]⟩)]⟩ 1 "/a" 7).2 = ⟨[], [(7, ⟨[]⟩)]⟩)) :=
  ⟨by decide, fun _ => by decide,
   visitFile_spec ⟨[], [(7, ⟨[]⟩)]⟩ 1 "/a" 7 (by decide) (fun _ => by decide)⟩

end RTags

